import Mathlib

/-!
Shallow embedding of the Community E-Library core (src/storage.py, src/admin.py).

Modelling conventions:
* Python dicts (`ELibrary.users`, `ELibrary.resources`) preserve insertion
  order and have unique keys; they are modelled as lists, with key lookup as
  `List.find?` on the key field and dict assignment as in-place replacement of
  the first key match (`insertUser`) or append when the key is absent.
* `hashlib.sha256(...).hexdigest()` is an arbitrary fixed function on strings;
  every definition is parametrised by `hash : String → String`.
* `self.current_user` holds a reference to a `User` stored in the dict; it is
  modelled as the username of that user (the code only ever assigns it a user
  that is present in the dict).
* Filesystem / browser / network effects (`os.path.exists`, `webbrowser.open`,
  `urllib`, `shutil.copy2`, `urlparse`-based URL detection) are external
  collaborators; they are modelled by an oracle `FS` of boolean-valued
  functions, and the outcome messages by small inductive types.
* `save_data` only serialises the state and is omitted (it does not change the
  in-memory state the claims are about).
* Timestamp fields (`created_at`, `added_date`) and the freshly generated
  resource id are irrelevant to the claims and are omitted or taken as input.
* Python's `str.lower()` is per-character lowering, modelled by mapping
  `Char.toLower` over the characters; `a in b` on strings is contiguous
  substring containment, modelled by `List.IsInfix` on the character lists.
-/

/-- `User.__init__` fields (src/storage.py lines 21-28), without `created_at`. -/
structure User where
  username : String
  password : String
  email : String
  role : String
  favorites : List String
  reading_history : List String
deriving Repr, DecidableEq

/-- `User.__init__`: stores the hash of the password, empty favorites and
history (src/storage.py lines 21-28). -/
def User.make (hash : String → String) (username password email role : String) : User :=
  { username := username
    password := hash password
    email := email
    role := role
    favorites := []
    reading_history := [] }

/-- `User.verify_password` (src/storage.py lines 34-36). -/
def User.verify_password (hash : String → String) (u : User) (password : String) : Bool :=
  u.password == hash password

/-- `Resource.__init__` fields (src/storage.py lines 66-78), without the
timestamp; the generated `id` is kept as a field. -/
structure Resource where
  id : String
  title : String
  author : String
  subject : String
  language : String
  file_path : String
  category : String
  description : String
  download_count : Nat
  view_count : Nat
deriving Repr, DecidableEq

/-- The in-memory state of `ELibrary` (src/storage.py lines 120-124). -/
structure ELibrary where
  users : List User
  resources : List Resource
  current_user : Option String
deriving Repr, DecidableEq

/-- Key lookup `self.users[username]` / `username in self.users` (dict keyed by
username). -/
def ELibrary.findUser (lib : ELibrary) (username : String) : Option User :=
  lib.users.find? (fun u => u.username == username)

/-- Key lookup `self.resources[resource_id]` / `resource_id in self.resources`
(dict keyed by resource id). -/
def ELibrary.findResource (lib : ELibrary) (rid : String) : Option Resource :=
  lib.resources.find? (fun r => r.id == rid)

/-- Dict assignment `self.users[u.username] = u`: replace the entry with the
same key in place, or append when the key is absent. -/
def insertUser (u : User) : List User → List User
  | [] => [u]
  | v :: vs => if v.username == u.username then u :: vs else v :: insertUser u vs

/-- In-place mutation of the dict entry with key `uname`
(e.g. `self.current_user.reading_history.append(...)` through the alias). -/
def updateFirstUser (uname : String) (f : User → User) : List User → List User
  | [] => []
  | u :: us => if u.username == uname then f u :: us else u :: updateFirstUser uname f us

/-- In-place mutation of the dict entry with key `rid`
(e.g. `resource.view_count += 1`). -/
def updateFirstResource (rid : String) (f : Resource → Resource) : List Resource → List Resource
  | [] => []
  | r :: rs => if r.id == rid then f r :: rs else r :: updateFirstResource rid f rs

/-- `ELibrary.register_user` (src/storage.py lines 175-182): duplicate key
fails; otherwise a fresh student user is stored under the username key. -/
def ELibrary.register_user (hash : String → String) (lib : ELibrary)
    (username password email : String) : ELibrary × Bool :=
  if (lib.findUser username).isSome then (lib, false)
  else ({ lib with users := insertUser (User.make hash username password email "student") lib.users },
        true)

/-- `ELibrary.login` (src/storage.py lines 184-189): on hash match the session
pointer is set; otherwise nothing changes. -/
def ELibrary.login (hash : String → String) (lib : ELibrary)
    (username password : String) : ELibrary × Bool :=
  match lib.findUser username with
  | some u =>
    if u.verify_password hash password then
      ({ lib with current_user := some username }, true)
    else (lib, false)
  | none => (lib, false)

/-- `ELibrary.logout` (src/storage.py lines 191-193). -/
def ELibrary.logout (lib : ELibrary) : ELibrary :=
  { lib with current_user := none }

/-- Python `str.lower()`, per character. -/
def lowerChars (s : String) : List Char :=
  s.data.map Char.toLower

/-- The match predicate of `ELibrary.search_resources` (src/storage.py lines
209-212): the lowered keyword occurs as a contiguous substring of the lowered
title, author, subject or language. -/
def matchesKeyword (keyword : String) (r : Resource) : Bool :=
  let kl := lowerChars keyword
  decide (kl <:+: lowerChars r.title) || decide (kl <:+: lowerChars r.author) ||
    decide (kl <:+: lowerChars r.subject) || decide (kl <:+: lowerChars r.language)

/-- `ELibrary.search_resources` (src/storage.py lines 203-215): a left-to-right
scan of the catalog appending each match. -/
def ELibrary.search_resources (lib : ELibrary) (keyword : String) : List Resource :=
  lib.resources.filter (matchesKeyword keyword)

/-- `ELibrary.get_resources_by_category` (src/storage.py lines 217-220):
exact string comparison `resource.category == category`. -/
def ELibrary.get_resources_by_category (lib : ELibrary) (category : String) : List Resource :=
  lib.resources.filter (fun r => r.category == category)

/-- Oracle for the external collaborators: URL classification (`_is_url`),
`os.path.exists`, and success/failure of the open / fetch / copy calls. -/
structure FS where
  is_url : String → Bool
  path_exists : String → Bool
  open_ok : String → Bool
  fetch_ok : String → Bool
  copy_ok : String → Bool

/-- The outcome messages of `view_resource` (src/storage.py lines 238-255). -/
inductive ViewOutcome where
  | openedUrl
  | urlError
  | openedFile
  | fileError
  | fileMissing
  | notFound
deriving Repr, DecidableEq

/-- The outcome messages of `download_resource` (src/storage.py lines 277-310). -/
inductive DownloadOutcome where
  | downloadedUrl
  | urlError
  | copiedFile
  | copyError
  | fileMissing
  | notFound
deriving Repr, DecidableEq

/-- The history append inside `view_resource` / `download_resource`
(src/storage.py lines 228-230 and 263-265): append the id only if absent. -/
def User.addHistory (u : User) (rid : String) : User :=
  if u.reading_history.contains rid then u
  else { u with reading_history := u.reading_history ++ [rid] }

/-- `if self.current_user: if rid not in reading_history: append` — the
mutation goes through the alias to the stored user. -/
def ELibrary.recordHistory (lib : ELibrary) (rid : String) : ELibrary :=
  match lib.current_user with
  | some uname =>
    { lib with users := updateFirstUser uname (fun u => u.addHistory rid) lib.users }
  | none => lib

/-- `ELibrary.view_resource` (src/storage.py lines 222-255): on a known id the
view counter is incremented and history recorded before any filesystem
interaction; the returned message depends only on the external oracle. -/
def ELibrary.view_resource (fs : FS) (lib : ELibrary) (rid : String) : ELibrary × ViewOutcome :=
  match lib.findResource rid with
  | some r =>
    let lib1 := { lib with
      resources := updateFirstResource rid
        (fun x => { x with view_count := x.view_count + 1 }) lib.resources }
    let lib2 := lib1.recordHistory rid
    let outcome :=
      if fs.is_url r.file_path then
        (if fs.open_ok r.file_path then ViewOutcome.openedUrl else ViewOutcome.urlError)
      else if fs.path_exists r.file_path then
        (if fs.open_ok r.file_path then ViewOutcome.openedFile else ViewOutcome.fileError)
      else ViewOutcome.fileMissing
    (lib2, outcome)
  | none => (lib, ViewOutcome.notFound)

/-- `ELibrary.download_resource` (src/storage.py lines 257-310): same shape as
`view_resource` with the download counter and the fetch/copy collaborators. -/
def ELibrary.download_resource (fs : FS) (lib : ELibrary) (rid : String) :
    ELibrary × DownloadOutcome :=
  match lib.findResource rid with
  | some r =>
    let lib1 := { lib with
      resources := updateFirstResource rid
        (fun x => { x with download_count := x.download_count + 1 }) lib.resources }
    let lib2 := lib1.recordHistory rid
    let outcome :=
      if fs.is_url r.file_path then
        (if fs.fetch_ok r.file_path then DownloadOutcome.downloadedUrl else DownloadOutcome.urlError)
      else if fs.path_exists r.file_path then
        (if fs.copy_ok r.file_path then DownloadOutcome.copiedFile else DownloadOutcome.copyError)
      else DownloadOutcome.fileMissing
    (lib2, outcome)
  | none => (lib, DownloadOutcome.notFound)

/-- `ELibrary.add_to_favorites` (src/storage.py lines 312-319): needs an active
session and a known resource id; appends only if absent, else falls through to
`return False`. (In every state the program reaches, the session username
resolves in the user dict; the `none` fallback is therefore never exercised.) -/
def ELibrary.add_to_favorites (lib : ELibrary) (rid : String) : ELibrary × Bool :=
  match lib.current_user with
  | some uname =>
    if (lib.findResource rid).isSome then
      match lib.findUser uname with
      | some u =>
        if u.favorites.contains rid then (lib, false)
        else ({ lib with
                 users := updateFirstUser uname
                   (fun v => { v with favorites := v.favorites ++ [rid] }) lib.users },
              true)
      | none => (lib, false)
    else (lib, false)
  | none => (lib, false)

/-- The result record of `get_usage_report` (src/storage.py lines 342-347). -/
structure UsageReport where
  total_resources : Nat
  total_users : Nat
  most_downloaded : List Resource
  most_viewed : List Resource

/-- Python `sorted(l, key, reverse=True)`: a stable descending sort. Python's
sort is stable and `reverse=True` preserves the original order of elements
with equal keys, which is exactly insertion sort under the reflexive total
relation `key b ≤ key a`. -/
def sortedByDesc (key : Resource → Nat) (l : List Resource) : List Resource :=
  List.insertionSort (fun a b => key b ≤ key a) l

/-- `ELibrary.get_usage_report` (src/storage.py lines 329-347). -/
def ELibrary.get_usage_report (lib : ELibrary) : UsageReport :=
  { total_resources := lib.resources.length
    total_users := (lib.users.filter (fun u => u.role == "student")).length
    most_downloaded := (sortedByDesc (fun r => r.download_count) lib.resources).take 5
    most_viewed := (sortedByDesc (fun r => r.view_count) lib.resources).take 5 }

/-- The bootstrapped default admin (src/storage.py line 138). -/
def defaultAdmin (hash : String → String) : User :=
  User.make hash "admin" "admin123" "admin@library.com" "admin"

/-- `ELibrary._create_default_admin` (src/storage.py lines 134-141). -/
def ELibrary.create_default_admin (hash : String → String) (lib : ELibrary) : ELibrary :=
  if lib.users.any (fun u => u.role == "admin") then lib
  else { lib with users := insertUser (defaultAdmin hash) lib.users }

/-- `AdminInterface.remove_user` (src/admin.py lines 214-231): refuses an
unknown username and refuses to remove the currently logged-in account;
otherwise deletes the dict entry. -/
def ELibrary.remove_user (lib : ELibrary) (target : String) : ELibrary :=
  match lib.current_user with
  | some c =>
    if (lib.findUser target).isSome then
      if target == c then lib
      else { lib with users := lib.users.eraseP (fun u => u.username == target) }
    else lib
  | none => lib

/-- The guard under which `remove_user` is reachable in the program:
`admin_dashboard` (src/admin.py lines 25-29, 38-66) is entered only after a
login as a user whose role is `admin`, and the session does not change inside
the dashboard loop. -/
def ELibrary.currentIsAdmin (lib : ELibrary) : Prop :=
  ∃ c u, lib.current_user = some c ∧ lib.findUser c = some u ∧ u.role = "admin"

/-- One user-management step of the running program: the facade operations that
create, authenticate or delete users. `remove_user` carries the reachability
guard of the admin dashboard. -/
inductive Step (hash : String → String) : ELibrary → ELibrary → Prop
  | register (lib : ELibrary) (u p e : String) :
      Step hash lib (lib.register_user hash u p e).1
  | login (lib : ELibrary) (u p : String) :
      Step hash lib (lib.login hash u p).1
  | logout (lib : ELibrary) :
      Step hash lib lib.logout
  | removeUser (lib : ELibrary) (target : String) (hadmin : lib.currentIsAdmin) :
      Step hash lib (lib.remove_user target)

/-- States reachable after `ELibrary.__init__` (src/storage.py lines 120-132):
any loaded user/resource content with no session, followed by the default
admin bootstrap, then any number of steps. -/
inductive Reachable (hash : String → String) : ELibrary → Prop
  | boot (users : List User) (resources : List Resource) :
      Reachable hash (ELibrary.create_default_admin hash
        { users := users, resources := resources, current_user := none })
  | step {s s' : ELibrary} : Reachable hash s → Step hash s s' → Reachable hash s'

/-! ### Helper lemmas about the dict operations -/

theorem find?_insertUser_self (u : User) :
    ∀ l : List User, (insertUser u l).find? (fun v => v.username == u.username) = some u := by
  intro l
  induction l with
  | nil => simp [insertUser, List.find?]
  | cons v vs ih =>
    by_cases h : (v.username == u.username) = true
    · simp [insertUser, h, List.find?]
    · simp only [insertUser, h, Bool.false_eq_true, if_false]
      rw [List.find?_cons_of_neg _ (by simpa using h)]
      exact ih

theorem mem_insertUser_self (u : User) : ∀ l : List User, u ∈ insertUser u l := by
  intro l
  induction l with
  | nil => simp [insertUser]
  | cons v vs ih =>
    by_cases h : (v.username == u.username) = true
    · simp [insertUser, h]
    · simp only [insertUser, h, Bool.false_eq_true, if_false]
      exact List.mem_cons_of_mem v ih

theorem mem_insertUser_of_ne (u v : User) (h : (v.username == u.username) = false) :
    ∀ l : List User, v ∈ l → v ∈ insertUser u l := by
  intro l hv
  induction l with
  | nil => cases hv
  | cons w ws ih =>
    by_cases hw : (w.username == u.username) = true
    · simp only [insertUser, hw, if_true]
      rcases List.mem_cons.mp hv with rfl | hmem
      · exact absurd hw (by simp [h])
      · exact List.mem_cons_of_mem u hmem
    · simp only [insertUser, hw, Bool.false_eq_true, if_false]
      rcases List.mem_cons.mp hv with rfl | hmem
      · exact List.mem_cons_self v _
      · exact List.mem_cons_of_mem w (ih hmem)

theorem find?_updateFirstUser (uname : String) (f : User → User)
    (hf : ∀ u, (f u).username = u.username) :
    ∀ l : List User, (updateFirstUser uname f l).find? (fun u => u.username == uname)
      = (l.find? (fun u => u.username == uname)).map f := by
  intro l
  induction l with
  | nil => simp [updateFirstUser]
  | cons u us ih =>
    by_cases h : (u.username == uname) = true
    · simp only [updateFirstUser, h, if_true]
      rw [List.find?_cons_of_pos us (show ((f u).username == uname) = true by simpa [hf] using h),
        List.find?_cons_of_pos us h]
      rfl
    · simp only [updateFirstUser, h, Bool.false_eq_true, if_false]
      rw [List.find?_cons_of_neg (updateFirstUser uname f us) (by simpa using h),
        List.find?_cons_of_neg us (by simpa using h)]
      exact ih

theorem find?_updateFirstResource (rid : String) (f : Resource → Resource)
    (hf : ∀ r, (f r).id = r.id) :
    ∀ l : List Resource, (updateFirstResource rid f l).find? (fun r => r.id == rid)
      = (l.find? (fun r => r.id == rid)).map f := by
  intro l
  induction l with
  | nil => simp [updateFirstResource]
  | cons r rs ih =>
    by_cases h : (r.id == rid) = true
    · simp only [updateFirstResource, h, if_true]
      rw [List.find?_cons_of_pos rs (show ((f r).id == rid) = true by simpa [hf] using h),
        List.find?_cons_of_pos rs h]
      rfl
    · simp only [updateFirstResource, h, Bool.false_eq_true, if_false]
      rw [List.find?_cons_of_neg (updateFirstResource rid f rs) (by simpa using h),
        List.find?_cons_of_neg rs (by simpa using h)]
      exact ih

theorem mem_updateFirstResource_of_ne (rid : String) (f : Resource → Resource)
    (r' : Resource) (h : (r'.id == rid) = false) :
    ∀ l : List Resource, r' ∈ l → r' ∈ updateFirstResource rid f l := by
  intro l hv
  induction l with
  | nil => cases hv
  | cons w ws ih =>
    by_cases hw : (w.id == rid) = true
    · simp only [updateFirstResource, hw, if_true]
      rcases List.mem_cons.mp hv with rfl | hmem
      · exact absurd hw (by simp [h])
      · exact List.mem_cons_of_mem _ hmem
    · simp only [updateFirstResource, hw, Bool.false_eq_true, if_false]
      rcases List.mem_cons.mp hv with rfl | hmem
      · exact List.mem_cons_self r' _
      · exact List.mem_cons_of_mem w (ih hmem)

theorem length_updateFirstResource (rid : String) (f : Resource → Resource) :
    ∀ l : List Resource, (updateFirstResource rid f l).length = l.length := by
  intro l
  induction l with
  | nil => rfl
  | cons r rs ih =>
    by_cases h : (r.id == rid) = true
    · simp [updateFirstResource, h]
    · simp [updateFirstResource, h, ih]

theorem mem_updateFirstUser_of_prop (uname : String) (f : User → User)
    (P : User → Prop) (hf : ∀ u, P u → P (f u)) :
    ∀ l : List User, (∃ u ∈ l, P u) → ∃ u ∈ updateFirstUser uname f l, P u := by
  intro l hex
  induction l with
  | nil => simp at hex
  | cons u us ih =>
    by_cases h : (u.username == uname) = true
    · simp only [updateFirstUser, h, if_true]
      rcases hex with ⟨w, hw, hPw⟩
      rcases List.mem_cons.mp hw with rfl | hmem
      · exact ⟨f w, List.mem_cons_self _ _, hf w hPw⟩
      · exact ⟨w, List.mem_cons_of_mem _ hmem, hPw⟩
    · simp only [updateFirstUser, h, Bool.false_eq_true, if_false]
      rcases hex with ⟨w, hw, hPw⟩
      rcases List.mem_cons.mp hw with rfl | hmem
      · exact ⟨w, List.mem_cons_self _ _, hPw⟩
      · rcases ih ⟨w, hmem, hPw⟩ with ⟨w', hw', hPw'⟩
        exact ⟨w', List.mem_cons_of_mem _ hw', hPw'⟩

/-- `recordHistory` never touches the session pointer. -/
theorem recordHistory_current (lib : ELibrary) (rid : String) :
    (lib.recordHistory rid).current_user = lib.current_user := by
  cases h : lib.current_user <;> simp [ELibrary.recordHistory, h]

/-- `recordHistory` never touches the catalog. -/
theorem recordHistory_resources (lib : ELibrary) (rid : String) :
    (lib.recordHistory rid).resources = lib.resources := by
  cases h : lib.current_user <;> simp [ELibrary.recordHistory, h]

/-! ### C1 — registration -/

/-- **C1 (amended)**: `register_user` fails (returns `false`, with the state
untouched) exactly when the username already exists; there is no
emptiness-after-trimming check, so any username not already present — the
empty string included — is accepted and stored as a student whose stored
password is the hash of the supplied password. A second register of the same
username returns `false` and leaves the whole state, in particular the first
user's stored password hash, unchanged. -/
theorem c1_register_spec (hash : String → String) (lib : ELibrary) (u p e : String) :
    ((lib.findUser u).isSome = true → lib.register_user hash u p e = (lib, false)) ∧
    (lib.findUser u = none →
       (lib.register_user hash u p e).2 = true ∧
       (lib.register_user hash u p e).1.findUser u = some (User.make hash u p e "student")) ∧
    (∀ p2 e2 lib1, lib.register_user hash u p e = (lib1, true) →
       lib1.register_user hash u p2 e2 = (lib1, false) ∧
       lib1.findUser u = some (User.make hash u p e "student") ∧
       (User.make hash u p e "student").password = hash p ∧
       (User.make hash u p e "student").role = "student") := by
  have hfind : lib.findUser u = none →
      (lib.register_user hash u p e).1.findUser u = some (User.make hash u p e "student") := by
    intro h
    have hnone : (lib.findUser u).isSome = false := by simp [h]
    show ELibrary.findUser _ u = _
    simp only [ELibrary.register_user, hnone, Bool.false_eq_true, if_false]
    exact find?_insertUser_self (User.make hash u p e "student") lib.users
  refine ⟨?_, ?_, ?_⟩
  · intro h
    simp [ELibrary.register_user, h]
  · intro h
    refine ⟨?_, hfind h⟩
    have hnone : (lib.findUser u).isSome = false := by simp [h]
    simp [ELibrary.register_user, hnone]
  · intro p2 e2 lib1 heq
    by_cases h : (lib.findUser u).isSome = true
    · exfalso
      have : lib.register_user hash u p e = (lib, false) := by simp [ELibrary.register_user, h]
      rw [this] at heq
      exact Bool.false_ne_true (congrArg Prod.snd heq)
    · have hnone : lib.findUser u = none := by
        cases hu : lib.findUser u with
        | none => rfl
        | some w => exact absurd (by simp [hu]) h
      have hlib1 : lib1 = (lib.register_user hash u p e).1 := by rw [heq]
      have hf1 : lib1.findUser u = some (User.make hash u p e "student") := by
        rw [hlib1]; exact hfind hnone
      refine ⟨?_, hf1, rfl, rfl⟩
      simp [ELibrary.register_user, hf1]

/-- **C1 witness**: starting from the empty library, registering `alice`, a
second registration of `alice` fails and her stored hash is still that of the
first password. -/
theorem c1_register_spec_witness :
    (ELibrary.register_user (fun s => s) ⟨[], [], none⟩ "alice" "pw1" "a@b").1.register_user
        (fun s => s) "alice" "pw2" "x"
      = ((ELibrary.register_user (fun s => s) ⟨[], [], none⟩ "alice" "pw1" "a@b").1, false) ∧
    (ELibrary.register_user (fun s => s) ⟨[], [], none⟩ "alice" "pw1" "a@b").1.findUser "alice"
      = some (User.make (fun s => s) "alice" "pw1" "a@b" "student") := by
  have h := (c1_register_spec (fun s => s) ⟨[], [], none⟩ "alice" "pw1" "a@b").2.2 "pw2" "x"
    (ELibrary.register_user (fun s => s) ⟨[], [], none⟩ "alice" "pw1" "a@b").1 (by rfl)
  exact ⟨h.1, h.2.1⟩

/-- **C1 counterexample**: the claim also demands failure when the username or
password is empty after trimming, but `register_user` has no such check: on
the empty library, registering the empty username with the empty password
returns `true` (and stores the user). -/
theorem c1_counterexample :
    (ELibrary.register_user (fun s => s) ⟨[], [], none⟩ "" "" "").2 = true ∧
    (ELibrary.register_user (fun s => s) ⟨[], [], none⟩ "" "" "").1.users.length = 1 := by
  exact ⟨rfl, rfl⟩

/-! ### C2 — failed login leaves the session intact -/

/-- **C2**: a login with an unknown username or a non-matching password
returns `false` and leaves the entire state — in particular the session
pointer — exactly as it was; a successful login only swings the pointer to
the authenticated username. So a failed login never logs anyone out. -/
theorem c2_login_spec (hash : String → String) (lib : ELibrary) (u p : String) :
    ((lib.login hash u p).2 = false → (lib.login hash u p).1 = lib) ∧
    (lib.findUser u = none → (lib.login hash u p).2 = false) ∧
    (∀ usr, lib.findUser u = some usr → usr.verify_password hash p = false →
       (lib.login hash u p).2 = false) ∧
    ((lib.login hash u p).2 = true →
       (lib.login hash u p).1 = { lib with current_user := some u }) ∧
    (∀ cur, lib.current_user = some cur → (lib.login hash u p).2 = false →
       (lib.login hash u p).1.current_user = some cur) := by
  refine ⟨?_, ?_, ?_, ?_, ?_⟩
  · intro hf
    cases h : lib.findUser u with
    | none => simp [ELibrary.login, h]
    | some usr =>
      by_cases hv : usr.verify_password hash p = true
      · simp [ELibrary.login, h, hv] at hf
      · simp only [Bool.not_eq_true] at hv
        simp [ELibrary.login, h, hv]
  · intro h
    simp [ELibrary.login, h]
  · intro usr h hv
    simp [ELibrary.login, h, hv]
  · intro ht
    cases h : lib.findUser u with
    | none => simp [ELibrary.login, h] at ht
    | some usr =>
      by_cases hv : usr.verify_password hash p = true
      · simp [ELibrary.login, h, hv]
      · simp only [Bool.not_eq_true] at hv
        simp [ELibrary.login, h, hv] at ht
  · intro cur hcur hf
    cases h : lib.findUser u with
    | none => simp [ELibrary.login, h, hcur]
    | some usr =>
      by_cases hv : usr.verify_password hash p = true
      · simp [ELibrary.login, h, hv] at hf
      · simp only [Bool.not_eq_true] at hv
        simp [ELibrary.login, h, hv, hcur]

/-- **C2 witness**: with `alice` registered and logged in, a login attempt
with a wrong password returns `false` and the session still points at
`alice`. -/
theorem c2_login_spec_witness :
    ((ELibrary.login (fun s => s)
        { users := [User.make (fun s => s) "alice" "pw1" "" "student"], resources := [],
          current_user := some "alice" } "alice" "wrong").2 = false) ∧
    ((ELibrary.login (fun s => s)
        { users := [User.make (fun s => s) "alice" "pw1" "" "student"], resources := [],
          current_user := some "alice" } "alice" "wrong").1.current_user = some "alice") := by
  have h := c2_login_spec (fun s => s)
    { users := [User.make (fun s => s) "alice" "pw1" "" "student"], resources := [],
      current_user := some "alice" } "alice" "wrong"
  have hf := h.2.2.1 (User.make (fun s => s) "alice" "pw1" "" "student") (by rfl) (by decide)
  exact ⟨hf, h.2.2.2.2 "alice" rfl hf⟩

/-! ### C3 — keyword search -/

/-- **C3**: `search_resources k` returns exactly the resources in which the
lowered `k` occurs as a contiguous substring of the lowered title OR author OR
subject OR language (union semantics), and it is a sublist of the catalog, so
matches come out in catalog (creation) order. -/
theorem c3_search_spec (lib : ELibrary) (k : String) :
    (∀ r, r ∈ lib.search_resources k ↔
       r ∈ lib.resources ∧
         (lowerChars k <:+: lowerChars r.title ∨ lowerChars k <:+: lowerChars r.author ∨
          lowerChars k <:+: lowerChars r.subject ∨ lowerChars k <:+: lowerChars r.language)) ∧
    List.Sublist (lib.search_resources k) lib.resources := by
  constructor
  · intro r
    simp [ELibrary.search_resources, List.mem_filter, matchesKeyword, Bool.or_eq_true,
      decide_eq_true_eq, or_assoc]
  · exact List.filter_sublist _

/-! ### C10 — the empty keyword matches everything -/

/-- **C10**: the empty keyword is a substring of every field, so
`search_resources ""` returns the entire catalog, in catalog order. -/
theorem c10_search_empty (lib : ELibrary) :
    lib.search_resources "" = lib.resources := by
  have h0 : lowerChars "" = ([] : List Char) := by decide
  unfold ELibrary.search_resources
  apply List.filter_eq_self.mpr
  intro r _
  simp [matchesKeyword, h0, List.nil_infix]

/-! ### C8 — category lookup is case-sensitive -/

/-- The resource used to separate `by_category` on case variants. -/
def mathResource : Resource :=
  { id := "r1", title := "Algebra I", author := "A. Smith", subject := "Math",
    language := "English", file_path := "/tmp/math.pdf", category := "Math",
    description := "", download_count := 0, view_count := 0 }

/-- **C8 counterexample**: `get_resources_by_category` compares categories with
plain string equality, so the two case variants `"Math"` and `"MATH"` select
different result lists — against the claim that category matching is
case-insensitive. -/
theorem c8_counterexample :
    ELibrary.get_resources_by_category ⟨[], [mathResource], none⟩ "Math" = [mathResource] ∧
    ELibrary.get_resources_by_category ⟨[], [mathResource], none⟩ "MATH" = [] := by
  exact ⟨by decide, by decide⟩

/-- **C8 (amended)**: `get_resources_by_category c` returns exactly the
resources whose category equals `c` by exact (case-sensitive) string
comparison, in catalog order. -/
theorem c8_by_category_spec (lib : ELibrary) (c : String) :
    (∀ r, r ∈ lib.get_resources_by_category c ↔ r ∈ lib.resources ∧ r.category = c) ∧
    List.Sublist (lib.get_resources_by_category c) lib.resources := by
  constructor
  · intro r
    simp [ELibrary.get_resources_by_category, List.mem_filter]
  · exact List.filter_sublist _

/-! ### C4 — ranked lists of the usage report -/

theorem filter_key_orderedInsert (key : Resource → Nat) (c : Nat) (x : Resource) :
    ∀ l : List Resource,
      (List.orderedInsert (fun a b => key b ≤ key a) x l).filter (fun y => key y == c)
        = if (key x == c) = true then x :: l.filter (fun y => key y == c)
          else l.filter (fun y => key y == c) := by
  intro l
  induction l with
  | nil =>
    by_cases h : (key x == c) = true <;> simp [List.orderedInsert, h]
  | cons y ys ih =>
    by_cases hr : key y ≤ key x
    · by_cases hx : (key x == c) = true <;>
        simp [List.orderedInsert, hr, List.filter_cons, hx]
    · have hlt : key x < key y := Nat.lt_of_not_le hr
      by_cases hy : (key y == c) = true
      · have hx : (key x == c) = false := by
          have h1 : key y = c := by simpa using hy
          have h2 : ¬ key x = c := by omega
          simpa using h2
        simp [List.orderedInsert, hr, List.filter_cons, hy, hx, ih]
      · by_cases hx : (key x == c) = true
        · simp [List.orderedInsert, hr, List.filter_cons, hy, hx, ih]
        · simp [List.orderedInsert, hr, List.filter_cons, hy, hx, ih]

/-- Stability of the modelled Python sort: the subsequence of elements with a
given key value is exactly that of the input, in the same order. -/
theorem filter_key_sortedByDesc (key : Resource → Nat) (c : Nat) :
    ∀ l : List Resource,
      (sortedByDesc key l).filter (fun y => key y == c) = l.filter (fun y => key y == c) := by
  intro l
  induction l with
  | nil => rfl
  | cons x xs ih =>
    show (List.orderedInsert _ x (sortedByDesc key xs)).filter _ = _
    rw [filter_key_orderedInsert key c x (sortedByDesc key xs), ih]
    by_cases hx : (key x == c) = true <;> simp [List.filter_cons, hx]

theorem sortedByDesc_sorted (key : Resource → Nat) (l : List Resource) :
    List.Sorted (fun a b => key b ≤ key a) (sortedByDesc key l) := by
  haveI : IsTotal Resource (fun a b => key b ≤ key a) := ⟨fun a b => Nat.le_total (key b) (key a)⟩
  haveI : IsTrans Resource (fun a b => key b ≤ key a) :=
    ⟨fun _ _ _ h1 h2 => Nat.le_trans h2 h1⟩
  exact List.sorted_insertionSort _ l

theorem mem_sortedByDesc (key : Resource → Nat) (l : List Resource) :
    ∀ r ∈ sortedByDesc key l, r ∈ l :=
  fun _ hr => (List.perm_insertionSort _ l).mem_iff.mp hr

/-- **C4**: both ranked lists of `get_usage_report` have length at most five,
are sorted descending by their counter, and are stable: the elements with any
fixed counter value form a prefix of the equally-counted resources in catalog
(creation) order. Every listed resource comes from the catalog. -/
theorem c4_usage_report_spec (lib : ELibrary) :
    (lib.get_usage_report).most_downloaded.length ≤ 5 ∧
    (lib.get_usage_report).most_viewed.length ≤ 5 ∧
    List.Sorted (fun a b => b.download_count ≤ a.download_count)
      (lib.get_usage_report).most_downloaded ∧
    List.Sorted (fun a b => b.view_count ≤ a.view_count)
      (lib.get_usage_report).most_viewed ∧
    (∀ c, (lib.get_usage_report).most_downloaded.filter (fun r => r.download_count == c)
        <+: lib.resources.filter (fun r => r.download_count == c)) ∧
    (∀ c, (lib.get_usage_report).most_viewed.filter (fun r => r.view_count == c)
        <+: lib.resources.filter (fun r => r.view_count == c)) ∧
    (∀ r ∈ (lib.get_usage_report).most_downloaded, r ∈ lib.resources) ∧
    (∀ r ∈ (lib.get_usage_report).most_viewed, r ∈ lib.resources) := by
  have hd : (lib.get_usage_report).most_downloaded
      = (sortedByDesc (fun r => r.download_count) lib.resources).take 5 := rfl
  have hv : (lib.get_usage_report).most_viewed
      = (sortedByDesc (fun r => r.view_count) lib.resources).take 5 := rfl
  refine ⟨?_, ?_, ?_, ?_, ?_, ?_, ?_, ?_⟩
  · rw [hd]; exact List.length_take_le 5 _
  · rw [hv]; exact List.length_take_le 5 _
  · rw [hd]
    exact (sortedByDesc_sorted (fun r => r.download_count) lib.resources).sublist
      (List.take_sublist 5 _)
  · rw [hv]
    exact (sortedByDesc_sorted (fun r => r.view_count) lib.resources).sublist
      (List.take_sublist 5 _)
  · intro c
    rw [hd, ← filter_key_sortedByDesc (fun r => r.download_count) c lib.resources]
    exact List.IsPrefix.filter _ (List.take_prefix 5 _)
  · intro c
    rw [hv, ← filter_key_sortedByDesc (fun r => r.view_count) c lib.resources]
    exact List.IsPrefix.filter _ (List.take_prefix 5 _)
  · intro r hr
    rw [hd] at hr
    exact mem_sortedByDesc _ _ r (List.take_subset 5 _ hr)
  · intro r hr
    rw [hv] at hr
    exact mem_sortedByDesc _ _ r (List.take_subset 5 _ hr)

/-! ### Shared facts about `view_resource` / `download_resource` -/

theorem addHistory_username (u : User) (rid : String) :
    (u.addHistory rid).username = u.username := by
  unfold User.addHistory
  split <;> rfl

theorem view_resource_none (fs : FS) (lib : ELibrary) (rid : String)
    (h : lib.findResource rid = none) :
    lib.view_resource fs rid = (lib, ViewOutcome.notFound) := by
  simp [ELibrary.view_resource, h]

theorem download_resource_none (fs : FS) (lib : ELibrary) (rid : String)
    (h : lib.findResource rid = none) :
    lib.download_resource fs rid = (lib, DownloadOutcome.notFound) := by
  simp [ELibrary.download_resource, h]

theorem view_resource_found (fs : FS) (lib : ELibrary) (rid : String) (r : Resource)
    (h : lib.findResource rid = some r) :
    (lib.view_resource fs rid).1
      = ELibrary.recordHistory
          { lib with
            resources := updateFirstResource rid
              (fun x => { x with view_count := x.view_count + 1 }) lib.resources } rid := by
  simp [ELibrary.view_resource, h]

theorem download_resource_found (fs : FS) (lib : ELibrary) (rid : String) (r : Resource)
    (h : lib.findResource rid = some r) :
    (lib.download_resource fs rid).1
      = ELibrary.recordHistory
          { lib with
            resources := updateFirstResource rid
              (fun x => { x with download_count := x.download_count + 1 }) lib.resources } rid := by
  simp [ELibrary.download_resource, h]

theorem view_resource_found_findResource (fs : FS) (lib : ELibrary) (rid : String)
    (r : Resource) (h : lib.findResource rid = some r) :
    (lib.view_resource fs rid).1.findResource rid
      = some { r with view_count := r.view_count + 1 } := by
  have h1 := view_resource_found fs lib rid r h
  show (_ : ELibrary).findResource rid = _
  unfold ELibrary.findResource
  rw [h1, recordHistory_resources]
  show (updateFirstResource rid _ lib.resources).find? _ = _
  rw [find?_updateFirstResource rid
    (fun x => { x with view_count := x.view_count + 1 }) (fun _ => rfl) lib.resources]
  unfold ELibrary.findResource at h
  rw [h]
  rfl

theorem download_resource_found_findResource (fs : FS) (lib : ELibrary) (rid : String)
    (r : Resource) (h : lib.findResource rid = some r) :
    (lib.download_resource fs rid).1.findResource rid
      = some { r with download_count := r.download_count + 1 } := by
  have h1 := download_resource_found fs lib rid r h
  show (_ : ELibrary).findResource rid = _
  unfold ELibrary.findResource
  rw [h1, recordHistory_resources]
  show (updateFirstResource rid _ lib.resources).find? _ = _
  rw [find?_updateFirstResource rid
    (fun x => { x with download_count := x.download_count + 1 }) (fun _ => rfl) lib.resources]
  unfold ELibrary.findResource at h
  rw [h]
  rfl

theorem view_resource_current (fs : FS) (lib : ELibrary) (rid : String) :
    (lib.view_resource fs rid).1.current_user = lib.current_user := by
  cases h : lib.findResource rid with
  | none => rw [view_resource_none fs lib rid h]
  | some r => rw [view_resource_found fs lib rid r h, recordHistory_current]

theorem download_resource_current (fs : FS) (lib : ELibrary) (rid : String) :
    (lib.download_resource fs rid).1.current_user = lib.current_user := by
  cases h : lib.findResource rid with
  | none => rw [download_resource_none fs lib rid h]
  | some r => rw [download_resource_found fs lib rid r h, recordHistory_current]

theorem recordHistory_findUser (lib : ELibrary) (rid uname : String)
    (hc : lib.current_user = some uname) :
    (lib.recordHistory rid).findUser uname
      = (lib.findUser uname).map (fun u => u.addHistory rid) := by
  unfold ELibrary.recordHistory
  rw [hc]
  show ELibrary.findUser
    { lib with users := updateFirstUser uname (fun u => u.addHistory rid) lib.users } uname = _
  unfold ELibrary.findUser
  exact find?_updateFirstUser uname _ (fun u => addHistory_username u rid) lib.users

theorem view_resource_findUser (fs : FS) (lib : ELibrary) (rid uname : String) (r : Resource)
    (hc : lib.current_user = some uname) (hfr : lib.findResource rid = some r) :
    (lib.view_resource fs rid).1.findUser uname
      = (lib.findUser uname).map (fun u => u.addHistory rid) := by
  rw [view_resource_found fs lib rid r hfr,
    recordHistory_findUser
      { lib with
        resources := updateFirstResource rid
          (fun x => { x with view_count := x.view_count + 1 }) lib.resources } rid uname hc]
  rfl

theorem download_resource_findUser (fs : FS) (lib : ELibrary) (rid uname : String) (r : Resource)
    (hc : lib.current_user = some uname) (hfr : lib.findResource rid = some r) :
    (lib.download_resource fs rid).1.findUser uname
      = (lib.findUser uname).map (fun u => u.addHistory rid) := by
  rw [download_resource_found fs lib rid r hfr,
    recordHistory_findUser
      { lib with
        resources := updateFirstResource rid
          (fun x => { x with download_count := x.download_count + 1 }) lib.resources } rid uname hc]
  rfl

/-! ### C5 — counters always move by exactly one -/

/-- **C5**: on an unknown id, `view_resource` and `download_resource` return a
not-found outcome and leave the state untouched; on a known id they increment
exactly that resource's respective counter by one — whatever the external
filesystem oracle answers, the outcome is never not-found, the catalog keeps
its length, and every other resource is left as it was. -/
theorem c5_counters_spec (fs : FS) (lib : ELibrary) (rid : String) :
    (lib.findResource rid = none →
       lib.view_resource fs rid = (lib, ViewOutcome.notFound) ∧
       lib.download_resource fs rid = (lib, DownloadOutcome.notFound)) ∧
    (∀ r, lib.findResource rid = some r →
       ((lib.view_resource fs rid).1.findResource rid
           = some { r with view_count := r.view_count + 1 } ∧
        (lib.view_resource fs rid).2 ≠ ViewOutcome.notFound ∧
        (lib.view_resource fs rid).1.resources.length = lib.resources.length ∧
        (∀ r', r' ∈ lib.resources → r'.id ≠ rid →
           r' ∈ (lib.view_resource fs rid).1.resources)) ∧
       ((lib.download_resource fs rid).1.findResource rid
           = some { r with download_count := r.download_count + 1 } ∧
        (lib.download_resource fs rid).2 ≠ DownloadOutcome.notFound ∧
        (lib.download_resource fs rid).1.resources.length = lib.resources.length ∧
        (∀ r', r' ∈ lib.resources → r'.id ≠ rid →
           r' ∈ (lib.download_resource fs rid).1.resources))) := by
  constructor
  · intro h
    exact ⟨view_resource_none fs lib rid h, download_resource_none fs lib rid h⟩
  · intro r h
    have hvres : (lib.view_resource fs rid).1.resources
        = updateFirstResource rid (fun x => { x with view_count := x.view_count + 1 })
            lib.resources := by
      rw [view_resource_found fs lib rid r h, recordHistory_resources]
    have hdres : (lib.download_resource fs rid).1.resources
        = updateFirstResource rid (fun x => { x with download_count := x.download_count + 1 })
            lib.resources := by
      rw [download_resource_found fs lib rid r h, recordHistory_resources]
    refine ⟨⟨view_resource_found_findResource fs lib rid r h, ?_, ?_, ?_⟩,
            ⟨download_resource_found_findResource fs lib rid r h, ?_, ?_, ?_⟩⟩
    · have h2 : (lib.view_resource fs rid).2
          = (if fs.is_url r.file_path then
               (if fs.open_ok r.file_path then ViewOutcome.openedUrl else ViewOutcome.urlError)
             else if fs.path_exists r.file_path then
               (if fs.open_ok r.file_path then ViewOutcome.openedFile else ViewOutcome.fileError)
             else ViewOutcome.fileMissing) := by
        simp [ELibrary.view_resource, h]
      rw [h2]
      split_ifs <;> simp
    · rw [hvres]; exact length_updateFirstResource rid _ lib.resources
    · intro r' hr' hne
      rw [hvres]
      exact mem_updateFirstResource_of_ne rid _ r' (beq_eq_false_iff_ne.mpr hne) lib.resources hr'
    · have h2 : (lib.download_resource fs rid).2
          = (if fs.is_url r.file_path then
               (if fs.fetch_ok r.file_path then DownloadOutcome.downloadedUrl
                else DownloadOutcome.urlError)
             else if fs.path_exists r.file_path then
               (if fs.copy_ok r.file_path then DownloadOutcome.copiedFile
                else DownloadOutcome.copyError)
             else DownloadOutcome.fileMissing) := by
        simp [ELibrary.download_resource, h]
      rw [h2]
      split_ifs <;> simp
    · rw [hdres]; exact length_updateFirstResource rid _ lib.resources
    · intro r' hr' hne
      rw [hdres]
      exact mem_updateFirstResource_of_ne rid _ r' (beq_eq_false_iff_ne.mpr hne) lib.resources hr'

/-- ELibrary state and oracle used by the witnesses: one student logged in,
one resource whose file path resolves nowhere. -/
def fsNone : FS :=
  { is_url := fun _ => false, path_exists := fun _ => false, open_ok := fun _ => false,
    fetch_ok := fun _ => false, copy_ok := fun _ => false }

def wRes : Resource :=
  { id := "r1", title := "T", author := "A", subject := "S", language := "L",
    file_path := "/missing.pdf", category := "Core Subjects", description := "",
    download_count := 0, view_count := 0 }

def wuA : User := User.make (fun s => s) "alice" "pw" "" "student"

def wLib : ELibrary := { users := [wuA], resources := [wRes], current_user := some "alice" }

/-- **C5 witness**: on the concrete one-resource library with a missing file,
one view sets the view counter to 1 and one download sets the download
counter to 1. -/
theorem c5_counters_spec_witness :
    (wLib.view_resource fsNone "r1").1.findResource "r1"
      = some { wRes with view_count := wRes.view_count + 1 } ∧
    (wLib.download_resource fsNone "r1").1.findResource "r1"
      = some { wRes with download_count := wRes.download_count + 1 } := by
  have h := (c5_counters_spec fsNone wLib "r1").2 wRes (by decide)
  exact ⟨h.1.1, h.2.1⟩

/-! ### C6 — reading history is an append-only deduplicated sequence -/

theorem addHistory_not_mem (u : User) (rid : String) (h : rid ∉ u.reading_history) :
    (u.addHistory rid).reading_history = u.reading_history ++ [rid] := by
  simp [User.addHistory, h]

theorem addHistory_mem (u : User) (rid : String) (h : rid ∈ u.reading_history) :
    u.addHistory rid = u := by
  simp [User.addHistory, h]

/-- **C6**: for a logged-in user, a view or download of a known resource turns
their stored history into `addHistory`, which appends the id exactly when it
was absent and is the identity when it was present; it preserves `Nodup`, an
unknown id changes nothing, and after two consecutive views of the same known
id the id occurs in the history exactly once. -/
theorem c6_history_spec (fs : FS) (lib : ELibrary) (rid uname : String) (u : User)
    (hc : lib.current_user = some uname) (hu : lib.findUser uname = some u) :
    ((lib.findResource rid).isSome = true →
       (lib.view_resource fs rid).1.findUser uname = some (u.addHistory rid) ∧
       (lib.download_resource fs rid).1.findUser uname = some (u.addHistory rid)) ∧
    (lib.findResource rid = none →
       (lib.view_resource fs rid).1.findUser uname = some u ∧
       (lib.download_resource fs rid).1.findUser uname = some u) ∧
    (rid ∉ u.reading_history →
       (u.addHistory rid).reading_history = u.reading_history ++ [rid]) ∧
    (rid ∈ u.reading_history → u.addHistory rid = u) ∧
    (u.reading_history.Nodup → (u.addHistory rid).reading_history.Nodup) ∧
    ((lib.findResource rid).isSome = true →
       ((lib.view_resource fs rid).1.view_resource fs rid).1.findUser uname
         = some ((u.addHistory rid).addHistory rid)) ∧
    (u.reading_history.Nodup →
       ((u.addHistory rid).addHistory rid).reading_history.count rid = 1) := by
  refine ⟨?_, ?_, addHistory_not_mem u rid, addHistory_mem u rid, ?_, ?_, ?_⟩
  · intro hs
    rcases Option.isSome_iff_exists.mp hs with ⟨r, hr⟩
    constructor
    · rw [view_resource_findUser fs lib rid uname r hc hr, hu]; rfl
    · rw [download_resource_findUser fs lib rid uname r hc hr, hu]; rfl
  · intro hn
    rw [view_resource_none fs lib rid hn, download_resource_none fs lib rid hn]
    exact ⟨hu, hu⟩
  · intro hnd
    by_cases hm : rid ∈ u.reading_history
    · rw [addHistory_mem u rid hm]; exact hnd
    · rw [addHistory_not_mem u rid hm]
      simp [List.nodup_append, hnd, hm]
  · intro hs
    rcases Option.isSome_iff_exists.mp hs with ⟨r, hr⟩
    have hc' : (lib.view_resource fs rid).1.current_user = some uname := by
      rw [view_resource_current fs lib rid, hc]
    have hr' : (lib.view_resource fs rid).1.findResource rid
        = some { r with view_count := r.view_count + 1 } :=
      view_resource_found_findResource fs lib rid r hr
    have hu' : (lib.view_resource fs rid).1.findUser uname = some (u.addHistory rid) := by
      rw [view_resource_findUser fs lib rid uname r hc hr, hu]; rfl
    rw [view_resource_findUser fs (lib.view_resource fs rid).1 rid uname
      { r with view_count := r.view_count + 1 } hc' hr', hu']
    rfl
  · intro hnd
    by_cases hm : rid ∈ u.reading_history
    · rw [addHistory_mem u rid hm, addHistory_mem u rid hm]
      exact List.count_eq_one_of_mem hnd hm
    · have h1 : (u.addHistory rid).reading_history = u.reading_history ++ [rid] :=
        addHistory_not_mem u rid hm
      have hmem : rid ∈ (u.addHistory rid).reading_history := by
        rw [h1]; simp
      rw [addHistory_mem (u.addHistory rid) rid hmem, h1]
      simp [List.count_append, List.count_eq_zero_of_not_mem hm]

/-- **C6 witness**: on the concrete library with `alice` logged in and an
empty history, two views of the same resource leave its id in her history
exactly once. -/
theorem c6_history_spec_witness :
    ((wLib.view_resource fsNone "r1").1.view_resource fsNone "r1").1.findUser "alice"
      = some ((wuA.addHistory "r1").addHistory "r1") ∧
    ((wuA.addHistory "r1").addHistory "r1").reading_history.count "r1" = 1 := by
  have h := c6_history_spec fsNone wLib "r1" "alice" wuA rfl (by decide)
  exact ⟨h.2.2.2.2.2.1 (by decide), h.2.2.2.2.2.2 (by decide)⟩

/-! ### C7 — favorites -/

/-- **C7**: `add_to_favorites` returns `false` and changes nothing when no
session is active, when the resource id is unknown, or when the id is already
among the current user's favorites; otherwise it appends the id, returns
`true`, the id then occurs exactly once, and an immediately repeated call
returns `false` with the state unchanged. -/
theorem c7_favorites_spec (lib : ELibrary) (rid : String) :
    (lib.current_user = none → lib.add_to_favorites rid = (lib, false)) ∧
    (lib.findResource rid = none → lib.add_to_favorites rid = (lib, false)) ∧
    (∀ uname u, lib.current_user = some uname → lib.findUser uname = some u →
       (rid ∈ u.favorites → lib.add_to_favorites rid = (lib, false)) ∧
       ((lib.findResource rid).isSome = true → rid ∉ u.favorites →
          (lib.add_to_favorites rid).2 = true ∧
          (lib.add_to_favorites rid).1.findUser uname
            = some { u with favorites := u.favorites ++ [rid] } ∧
          (u.favorites ++ [rid]).count rid = 1 ∧
          (lib.add_to_favorites rid).1.add_to_favorites rid
            = ((lib.add_to_favorites rid).1, false))) := by
  refine ⟨?_, ?_, ?_⟩
  · intro h
    simp [ELibrary.add_to_favorites, h]
  · intro h
    cases hcur : lib.current_user with
    | none => simp [ELibrary.add_to_favorites, hcur]
    | some uname => simp [ELibrary.add_to_favorites, hcur, h]
  · intro uname u hcur hu
    constructor
    · intro hm
      by_cases hfr : (lib.findResource rid).isSome = true
      · simp [ELibrary.add_to_favorites, hcur, hfr, hu, hm]
      · have hfr' : (lib.findResource rid).isSome = false := by simpa using hfr
        simp [ELibrary.add_to_favorites, hcur, hfr']
    · intro hfr hm
      have heq : lib.add_to_favorites rid
          = ({ lib with
                users := updateFirstUser uname
                  (fun v => { v with favorites := v.favorites ++ [rid] }) lib.users }, true) := by
        simp [ELibrary.add_to_favorites, hcur, hfr, hu, hm]
      have hfu : (lib.add_to_favorites rid).1.findUser uname
          = some { u with favorites := u.favorites ++ [rid] } := by
        rw [heq]
        show ELibrary.findUser _ _ = _
        unfold ELibrary.findUser
        rw [find?_updateFirstUser uname
          (fun v => { v with favorites := v.favorites ++ [rid] }) (fun _ => rfl) lib.users]
        unfold ELibrary.findUser at hu
        rw [hu]
        rfl
      refine ⟨by rw [heq], hfu, ?_, ?_⟩
      · simp [List.count_append, List.count_eq_zero_of_not_mem hm]
      · have hcur1 : (lib.add_to_favorites rid).1.current_user = some uname := by
          rw [heq]; exact hcur
        have hfr1 : ((lib.add_to_favorites rid).1.findResource rid).isSome = true := by
          rw [heq]; exact hfr
        have hgoal : ∀ lib1 : ELibrary, lib1.current_user = some uname →
            (lib1.findResource rid).isSome = true →
            lib1.findUser uname = some { u with favorites := u.favorites ++ [rid] } →
            lib1.add_to_favorites rid = (lib1, false) := by
          intro lib1 h1 h2 h3
          simp [ELibrary.add_to_favorites, h1, h2, h3]
        exact hgoal _ hcur1 hfr1 hfu

/-- **C7 witness**: on the concrete library, favoriting `r1` succeeds and
stores it once; favoriting it again fails and changes nothing. -/
theorem c7_favorites_spec_witness :
    (wLib.add_to_favorites "r1").2 = true ∧
    (wLib.add_to_favorites "r1").1.findUser "alice"
      = some { wuA with favorites := wuA.favorites ++ ["r1"] } ∧
    (wLib.add_to_favorites "r1").1.add_to_favorites "r1"
      = ((wLib.add_to_favorites "r1").1, false) := by
  have h := ((c7_favorites_spec wLib "r1").2.2 "alice" wuA rfl (by decide)).2
    (by decide) (by decide)
  exact ⟨h.1, h.2.1, h.2.2.2⟩

/-! ### C9 — an admin user always exists -/

/-- Inductive invariant for C9: some stored user has the admin role, and the
session pointer (when set) names a stored user. -/
def adminInv (lib : ELibrary) : Prop :=
  (∃ u ∈ lib.users, u.role = "admin") ∧
  (∀ c, lib.current_user = some c → ∃ u ∈ lib.users, u.username = c)

theorem adminInv_boot (hash : String → String) (users : List User)
    (resources : List Resource) :
    adminInv (ELibrary.create_default_admin hash
      { users := users, resources := resources, current_user := none }) := by
  unfold ELibrary.create_default_admin
  by_cases h : (({ users := users, resources := resources, current_user := none } :
      ELibrary).users.any (fun u => u.role == "admin")) = true
  · rw [if_pos h]
    rcases List.any_eq_true.mp h with ⟨u, hu, hrole⟩
    exact ⟨⟨u, hu, by simpa using hrole⟩, fun c hc => by simp at hc⟩
  · rw [if_neg h]
    refine ⟨⟨defaultAdmin hash, mem_insertUser_self _ _, rfl⟩, fun c hc => by simp at hc⟩

theorem adminInv_step (hash : String → String) {s s' : ELibrary}
    (hstep : Step hash s s') (hinv : adminInv s) : adminInv s' := by
  obtain ⟨⟨w, hw, hwrole⟩, hcur⟩ := hinv
  cases hstep with
  | register u p e =>
    cases hfu : s.findUser u with
    | some usr =>
      have h1 : (s.register_user hash u p e).1 = s := by
        simp [ELibrary.register_user, hfu]
      rw [h1]
      exact ⟨⟨w, hw, hwrole⟩, hcur⟩
    | none =>
      have h1 : (s.register_user hash u p e).1
          = { s with users := insertUser (User.make hash u p e "student") s.users } := by
        simp [ELibrary.register_user, hfu]
      rw [h1]
      have hall : ∀ v ∈ s.users, (v.username == u) = false := by
        intro v hv
        have hnp := List.find?_eq_none.mp hfu v hv
        simpa using hnp
      constructor
      · exact ⟨w, mem_insertUser_of_ne _ w (hall w hw) s.users hw, hwrole⟩
      · intro c hc
        obtain ⟨v, hv, hvn⟩ := hcur c hc
        exact ⟨v, mem_insertUser_of_ne _ v (hall v hv) s.users hv, hvn⟩
  | login u p =>
    cases hfu : s.findUser u with
    | none =>
      have h1 : (s.login hash u p).1 = s := by simp [ELibrary.login, hfu]
      rw [h1]
      exact ⟨⟨w, hw, hwrole⟩, hcur⟩
    | some usr =>
      by_cases hv : usr.verify_password hash p = true
      · have h1 : (s.login hash u p).1 = { s with current_user := some u } := by
          simp [ELibrary.login, hfu, hv]
        rw [h1]
        refine ⟨⟨w, hw, hwrole⟩, ?_⟩
        intro c hc
        have hcu : u = c := by simpa using hc
        subst hcu
        refine ⟨usr, List.mem_of_find?_eq_some hfu, ?_⟩
        simpa using List.find?_some hfu
      · simp only [Bool.not_eq_true] at hv
        have h1 : (s.login hash u p).1 = s := by simp [ELibrary.login, hfu, hv]
        rw [h1]
        exact ⟨⟨w, hw, hwrole⟩, hcur⟩
  | logout =>
    exact ⟨⟨w, hw, hwrole⟩, fun c hc => by simp [ELibrary.logout] at hc⟩
  | removeUser target hadmin =>
    obtain ⟨c, au, hc, hfind, hrole⟩ := hadmin
    have hmem_au : au ∈ s.users := List.mem_of_find?_eq_some hfind
    have hau_name : au.username = c := by simpa using List.find?_some hfind
    by_cases hex : (s.findUser target).isSome = true
    · by_cases ht : (target == c) = true
      · have h1 : s.remove_user target = s := by
          simp [ELibrary.remove_user, hc, hex, ht]
        rw [h1]
        exact ⟨⟨w, hw, hwrole⟩, hcur⟩
      · have h1 : s.remove_user target
            = { s with users := s.users.eraseP (fun v => v.username == target) } := by
          simp [ELibrary.remove_user, hc, hex, ht]
        rw [h1]
        have hneq : target ≠ c := by simpa using ht
        have hpa : ¬ ((au.username == target) = true) := by
          simp only [hau_name, beq_iff_eq]
          exact fun hh => hneq hh.symm
        have hiff : au ∈ s.users.eraseP (fun v => v.username == target) ↔ au ∈ s.users :=
          List.mem_eraseP_of_neg hpa
        have hau_keep := hiff.mpr hmem_au
        refine ⟨⟨au, hau_keep, hrole⟩, ?_⟩
        intro c' hc'
        have hcc : c = c' := by
          have hsame : s.current_user = some c' := hc'
          rw [hc] at hsame
          simpa using hsame
        subst hcc
        exact ⟨au, hau_keep, hau_name⟩
    · have hnone : (s.findUser target).isSome = false := by simpa using hex
      have h1 : s.remove_user target = s := by
        simp [ELibrary.remove_user, hc, hnone]
      rw [h1]
      exact ⟨⟨w, hw, hwrole⟩, hcur⟩

/-- **C9**: the default-admin bootstrap makes an admin exist at startup, and
every state reachable from construction under `register_user`, `login`,
`logout` and the dashboard-guarded `remove_user` still stores a user with the
admin role. -/
theorem c9_admin_invariant (hash : String → String) (lib : ELibrary)
    (h : Reachable hash lib) :
    lib.users.any (fun u => u.role == "admin") = true := by
  have hinv : adminInv lib := by
    induction h with
    | boot users resources => exact adminInv_boot hash users resources
    | step hr hstep ih => exact adminInv_step hash hstep ih
  rcases hinv.1 with ⟨u, hu, hrole⟩
  exact List.any_eq_true.mpr ⟨u, hu, by simpa using hrole⟩

/-- **C9 witness**: the bootstrapped empty library is reachable and contains
an admin user. -/
theorem c9_admin_invariant_witness :
    (ELibrary.create_default_admin (fun s => s)
        { users := [], resources := [], current_user := none }).users.any
      (fun u => u.role == "admin") = true :=
  c9_admin_invariant (fun s => s) _ (Reachable.boot [] [])

/-! ### Concrete instances of the universally quantified claims -/

/-- **C3 witness**: search results on the concrete library are a sublist of
the catalog. -/
theorem c3_search_spec_witness :
    List.Sublist (wLib.search_resources "t") wLib.resources :=
  (c3_search_spec wLib "t").2

/-- **C4 witness**: the ranked download list of the concrete library is short
and sorted. -/
theorem c4_usage_report_spec_witness :
    (wLib.get_usage_report).most_downloaded.length ≤ 5 ∧
    List.Sorted (fun a b => b.download_count ≤ a.download_count)
      (wLib.get_usage_report).most_downloaded :=
  ⟨(c4_usage_report_spec wLib).1, (c4_usage_report_spec wLib).2.2.1⟩

/-- **C8 witness**: the category selection on the concrete library is a
sublist of the catalog. -/
theorem c8_by_category_spec_witness :
    List.Sublist (wLib.get_resources_by_category "Core Subjects") wLib.resources :=
  (c8_by_category_spec wLib "Core Subjects").2

/-- **C10 witness**: the empty search on the concrete library returns the
whole catalog. -/
theorem c10_search_empty_witness :
    wLib.search_resources "" = wLib.resources :=
  c10_search_empty wLib
